import Mathlib

/-!
# CMSIS-DSP floating-point PID controller: initialisation and per-tick recurrence

Embedding of `arm_pid_init_f32`
(`CMSIS/DSP/Source/ControllerFunctions/arm_pid_init_f32.c`) together with the
per-tick `step` operation described by the specification.

The scalar type `float32_t` is kept abstract: every definition is written over
a carrier `F` that only provides the operations the C code uses (`+`, binary
`-`, unary `-`, `*`, the all-zero-bits value `0` written by `memset`, and the
literal `(float32_t) 2.0`).  No algebraic law is assumed for them, so a
property proved at this level holds for whatever arithmetic the target
implements, with exactly the operation order of the source.  Properties that
are stated "in exact arithmetic" are proved for carriers that are commutative
rings (for instance the rationals or the reals).  Where a property that needs
arithmetic laws is stated without that qualifier, the same definitions are
evaluated on `IeeeScalar`, a carrier with the IEEE-754 infinities, NaN and
signed zeros.
-/

namespace PID

/-- Modelled from the spec: the three-slot state buffer `float32_t state[3]` of
the controller instance (its declaration lives in `arm_math.h`, which is not
part of the sources).  Slot `s0` is `state[0]`, `s1` is `state[1]`, `s2` is
`state[2]`. -/
structure StateBuf (F : Type) where
  s0 : F
  s1 : F
  s2 : F
deriving DecidableEq, Repr

/-- Modelled from the spec: the instance structure `arm_pid_instance_f32`
(declared in `arm_math.h`, which is not part of the sources): three derived
coefficients, the three-slot state buffer and the three gains. -/
structure arm_pid_instance_f32 (F : Type) where
  A0 : F
  A1 : F
  A2 : F
  state : StateBuf F
  Kp : F
  Ki : F
  Kd : F
deriving DecidableEq, Repr

section Operations

variable {F : Type} [Add F] [Sub F] [Neg F] [Mul F] [Zero F] [OfNat F 2]

/-- The C function `arm_pid_init_f32(S, resetStateFlag)`: the three coefficient
assignments in source order, then the `memset` of the state buffer guarded by
`if (resetStateFlag)`.  The `int32_t` flag is an integer; the C condition is
true exactly when it is non-zero. -/
def arm_pid_init_f32 (S : arm_pid_instance_f32 F) (resetStateFlag : Int) :
    arm_pid_instance_f32 F :=
  -- S->A0 = S->Kp + S->Ki + S->Kd;
  let S1 := { S with A0 := S.Kp + S.Ki + S.Kd }
  -- S->A1 = (-S->Kp) - ((float32_t) 2.0 * S->Kd);
  let S2 := { S1 with A1 := (-S1.Kp) - ((2 : F) * S1.Kd) }
  -- S->A2 = S->Kd;
  let S3 := { S2 with A2 := S2.Kd }
  -- if (resetStateFlag) memset(S->state, 0, 3u * sizeof(float32_t));
  if resetStateFlag ≠ 0 then
    { S3 with state := { s0 := 0, s1 := 0, s2 := 0 } }
  else
    S3

/-- Modelled from the spec: the per-tick operation `step(error)` (the inline
function `arm_pid_f32` of `arm_math.h`, which is not part of the sources).
First `y = A0*error + A1*state[0] + A2*state[1] + state[2]` is computed from
the state as it is before the call, then `state[1] ← state[0]`,
`state[0] ← error`, `state[2] ← y`, and `y` is returned.  The result pairs the
returned output with the instance after the call. -/
def step (S : arm_pid_instance_f32 F) (error : F) : F × arm_pid_instance_f32 F :=
  let y := S.A0 * error + S.A1 * S.state.s0 + S.A2 * S.state.s1 + S.state.s2
  let st1 : StateBuf F := { S.state with s1 := S.state.s0 }
  let st2 : StateBuf F := { st1 with s0 := error }
  let st3 : StateBuf F := { st2 with s2 := y }
  (y, { S with state := st3 })

/-- The instance left behind by feeding the errors `es`, in order, to
successive `step` calls. -/
def drive (S : arm_pid_instance_f32 F) : List F → arm_pid_instance_f32 F
  | [] => S
  | e :: es => drive (step S e).2 es

/-- The outputs returned, in order, by feeding the errors `es` to successive
`step` calls. -/
def outputs (S : arm_pid_instance_f32 F) : List F → List F
  | [] => []
  | e :: es => (step S e).1 :: outputs (step S e).2 es

/-- A sample of a sequence at a signed tick index: the values before tick 0
(negative indices, `e[-1]`, `e[-2]`, `y[-1]`) are zero. -/
def sampleAt (xs : List F) (i : Int) : F :=
  if i < 0 then 0 else xs.getD i.toNat 0

/-- One call made on a controller instance by its owner: either
`arm_pid_init_f32` with a reset flag or `step` with an error sample. -/
inductive Call (F : Type) where
  | init (resetStateFlag : Int)
  | tick (error : F)
deriving DecidableEq, Repr

/-- The instance after one call (the output of a `step` call is dropped). -/
def perform (S : arm_pid_instance_f32 F) : Call F → arm_pid_instance_f32 F
  | Call.init resetStateFlag => arm_pid_init_f32 S resetStateFlag
  | Call.tick error => (step S error).2

/-- The instance after a finite sequence of calls, made in order. -/
def performAll (S : arm_pid_instance_f32 F) : List (Call F) → arm_pid_instance_f32 F
  | [] => S
  | c :: cs => performAll (perform S c) cs

/-- The coefficient invariant of a usable controller: `A0 = Kp + Ki + Kd`,
`A1 = -Kp - 2*Kd`, `A2 = Kd`, with the operation order of `arm_pid_init_f32`. -/
def coefficientsDerived (S : arm_pid_instance_f32 F) : Prop :=
  S.A0 = S.Kp + S.Ki + S.Kd ∧ S.A1 = (-S.Kp) - ((2 : F) * S.Kd) ∧ S.A2 = S.Kd

instance coefficientsDerived_decidable [DecidableEq F] (S : arm_pid_instance_f32 F) :
    Decidable (coefficientsDerived S) := by
  unfold coefficientsDerived
  exact inferInstance

/-- The direct-form PID law under unit sample interval, following the words of
the specification: proportional term on the current error, integral term on
the sum of all errors up to and including tick `n`, derivative term on the
backward difference (with `e[-1] = 0`):
`Kp*e[n] + Ki*(e[0] + ... + e[n]) + Kd*(e[n] - e[n-1])`. -/
def pidDirectForm (Kp Ki Kd : F) (es : List F) (n : Nat) : F :=
  Kp * sampleAt es n + Ki * (es.take (n + 1)).sum + Kd * (sampleAt es n - sampleAt es ((n : Int) - 1))

end Operations

/-- A concrete instance over the integers with gains `Kp = 2`, `Ki = 1`,
`Kd = 3`, stale coefficients and a non-zero prior state. -/
def sampleInstance : arm_pid_instance_f32 Int :=
  { A0 := 9, A1 := 8, A2 := 7, state := { s0 := 4, s1 := 5, s2 := 6 }, Kp := 2, Ki := 1, Kd := 3 }

/-- A concrete instance with the coefficients and state of `sampleInstance` but
other gains. -/
def retunedInstance : arm_pid_instance_f32 Int :=
  { A0 := 9, A1 := 8, A2 := 7, state := { s0 := 4, s1 := 5, s2 := 6 }, Kp := 5, Ki := -6, Kd := 7 }

/-- A concrete instance with the gains of `sampleInstance` but other
coefficients and another prior state. -/
def staleInstance : arm_pid_instance_f32 Int :=
  { A0 := 0, A1 := -1, A2 := 11, state := { s0 := 10, s1 := 20, s2 := 30 },
    Kp := 2, Ki := 1, Kd := 3 }

/-- A concrete controller over the integers with gains `2, 1, 3`, the
coefficients `6, -8, 3` derived from them, and the error `5` held in both error
slots of its state, the last output being `40`. -/
def heldErrorInstance : arm_pid_instance_f32 Int :=
  { A0 := 6, A1 := -8, A2 := 3, state := { s0 := 5, s1 := 5, s2 := 40 },
    Kp := 2, Ki := 1, Kd := 3 }

/-- Modelled from the spec: the IEEE-754 scalar behind `float32_t` (a typedef of
`arm_math.h`, which is not part of the sources), as far as its special values
go: NaN, the two infinities, and signed integers in sign-magnitude form, so
that `+0` and `-0` are distinct values.  The specification lets NaN and the
infinities through as inputs ("not detected or rejected; they propagate
arithmetically").  Arithmetic on the integer values is exact, which is what
binary32 computes as long as magnitudes stay below `2^24`; rounding and
overflow are not modelled. -/
inductive IeeeScalar where
  | nan
  | inf (negative : Bool)
  | fin (negative : Bool) (magnitude : Nat)
deriving DecidableEq, Repr

namespace IeeeScalar

/-- IEEE-754 negation: flips the sign, NaN stays NaN. -/
def neg : IeeeScalar → IeeeScalar
  | nan => nan
  | inf s => inf (!s)
  | fin s m => fin (!s) m

/-- IEEE-754 addition (round to nearest): NaN propagates, infinities of opposite
sign add to NaN, an infinity absorbs a finite value, and an exact zero sum is
`+0` unless both operands are `-0`. -/
def add : IeeeScalar → IeeeScalar → IeeeScalar
  | nan, _ => nan
  | _, nan => nan
  | inf s, inf t => if s = t then inf s else nan
  | inf s, fin _ _ => inf s
  | fin _ _, inf t => inf t
  | fin s m, fin t n =>
    if s = t then fin s (m + n)
    else if n < m then fin s (m - n)
    else if m < n then fin t (n - m)
    else fin false 0

/-- IEEE-754 subtraction: `x - y` is `x + (-y)`. -/
def sub (x y : IeeeScalar) : IeeeScalar :=
  add x (neg y)

/-- IEEE-754 multiplication: NaN propagates, an infinity times a zero is NaN,
otherwise the sign is the exclusive or of the signs. -/
def mul : IeeeScalar → IeeeScalar → IeeeScalar
  | nan, _ => nan
  | _, nan => nan
  | inf s, inf t => inf (s != t)
  | inf s, fin t n => if n = 0 then nan else inf (s != t)
  | fin s m, inf t => if m = 0 then nan else inf (s != t)
  | fin s m, fin t n => fin (s != t) (m * n)

instance instAdd : Add IeeeScalar := ⟨add⟩

instance instSub : Sub IeeeScalar := ⟨sub⟩

instance instNeg : Neg IeeeScalar := ⟨neg⟩

instance instMul : Mul IeeeScalar := ⟨mul⟩

/-- The value with all bits zero, `+0`. -/
instance instZero : Zero IeeeScalar := ⟨fin false 0⟩

/-- A non-negative integer literal, such as `(float32_t) 2.0`. -/
instance instOfNat (n : Nat) : OfNat IeeeScalar n := ⟨fin false n⟩

end IeeeScalar

/-- The error sequence `e + c*e'`, tick by tick (and, applied to two output
sequences, the outputs for `e` plus `c` times the outputs for `e'`). -/
def superpose {F : Type} [Add F] [Mul F] (xs ys : List F) (c : F) : List F :=
  List.zipWith (fun x y => x + c * y) xs ys

/-! ## Initialisation -/

section InitTheorems

variable {F : Type} [Add F] [Sub F] [Neg F] [Mul F] [Zero F] [OfNat F 2]

/-- C1: for every instance and every reset flag, after `arm_pid_init_f32` the
coefficients are `A0 = (Kp + Ki) + Kd`, `A1 = (-Kp) - (2 * Kd)` and `A2 = Kd`,
as values computed with exactly this operation order (no arithmetic law is
used). -/
theorem arm_pid_init_f32_coefficients (S : arm_pid_instance_f32 F) (resetStateFlag : Int) :
    (arm_pid_init_f32 S resetStateFlag).A0 = (S.Kp + S.Ki) + S.Kd ∧
    (arm_pid_init_f32 S resetStateFlag).A1 = (-S.Kp) - ((2 : F) * S.Kd) ∧
    (arm_pid_init_f32 S resetStateFlag).A2 = S.Kd := by
  unfold arm_pid_init_f32
  split <;> exact ⟨rfl, rfl, rfl⟩

/-- C2: for every instance, whatever its prior state, after
`arm_pid_init_f32 S 1` the state is exactly `[0, 0, 0]`. -/
theorem arm_pid_init_f32_reset_state (S : arm_pid_instance_f32 F) :
    (arm_pid_init_f32 S 1).state = { s0 := 0, s1 := 0, s2 := 0 } := by
  simp [arm_pid_init_f32]

/-- C3: for every instance (in particular one whose state was produced by
earlier `step` calls and whose gains were changed afterwards),
`arm_pid_init_f32 S 0` leaves the three state slots as they were, while the
same call recomputes the coefficients from the current gains. -/
theorem arm_pid_init_f32_no_reset_keeps_state (S : arm_pid_instance_f32 F) :
    (arm_pid_init_f32 S 0).state = S.state ∧
    (arm_pid_init_f32 S 0).A0 = (S.Kp + S.Ki) + S.Kd ∧
    (arm_pid_init_f32 S 0).A1 = (-S.Kp) - ((2 : F) * S.Kd) ∧
    (arm_pid_init_f32 S 0).A2 = S.Kd := by
  simp [arm_pid_init_f32]

/-- C5: `arm_pid_init_f32` is idempotent: applying it twice in a row with the
same flag yields the same instance (gains, coefficients and state) as applying
it once. -/
theorem arm_pid_init_f32_idempotent (S : arm_pid_instance_f32 F) (resetStateFlag : Int) :
    arm_pid_init_f32 (arm_pid_init_f32 S resetStateFlag) resetStateFlag =
      arm_pid_init_f32 S resetStateFlag := by
  unfold arm_pid_init_f32
  split <;> rfl

/-- C6: `arm_pid_init_f32` leaves the gains `Kp`, `Ki`, `Kd` unchanged for every
instance and every flag; besides `A0`, `A1`, `A2` it writes the state only when
resetting: for flag 0 the state is the old one, otherwise it is `[0, 0, 0]`. -/
theorem arm_pid_init_f32_frame (S : arm_pid_instance_f32 F) (resetStateFlag : Int) :
    (arm_pid_init_f32 S resetStateFlag).Kp = S.Kp ∧
    (arm_pid_init_f32 S resetStateFlag).Ki = S.Ki ∧
    (arm_pid_init_f32 S resetStateFlag).Kd = S.Kd ∧
    (arm_pid_init_f32 S resetStateFlag).state =
      (if resetStateFlag = 0 then S.state else { s0 := 0, s1 := 0, s2 := 0 }) := by
  unfold arm_pid_init_f32
  by_cases h : resetStateFlag = 0
  · simp [h]
  · simp [h]

/-- C13, the claim as stated fails: with flag 0 the state `[4, 5, 6]` of
`sampleInstance` is still `[4, 5, 6]` after `arm_pid_init_f32`, not
`[0, 0, 0]`. -/
theorem arm_pid_init_f32_flag_zero_state_not_cleared :
    (arm_pid_init_f32 sampleInstance 0).state = { s0 := 4, s1 := 5, s2 := 6 } ∧
    (arm_pid_init_f32 sampleInstance 0).state ≠ { s0 := 0, s1 := 0, s2 := 0 } := by
  decide

/-- C13, amended: `arm_pid_init_f32` computes `A0`, `A1`, `A2` from `Kp`, `Ki`,
`Kd` for every instance and every flag, and sets the state variables to all
zeros when the flag is non-zero; with flag 0 the state is left as it was. -/
theorem arm_pid_init_f32_documented_effect (S : arm_pid_instance_f32 F)
    (resetStateFlag : Int) :
    (arm_pid_init_f32 S resetStateFlag).A0 = (S.Kp + S.Ki) + S.Kd ∧
    (arm_pid_init_f32 S resetStateFlag).A1 = (-S.Kp) - ((2 : F) * S.Kd) ∧
    (arm_pid_init_f32 S resetStateFlag).A2 = S.Kd ∧
    (arm_pid_init_f32 S resetStateFlag).state =
      (if resetStateFlag ≠ 0 then { s0 := 0, s1 := 0, s2 := 0 } else S.state) := by
  unfold arm_pid_init_f32
  split <;> exact ⟨rfl, rfl, rfl, rfl⟩

/-- C14: `arm_pid_init_f32` clears the state exactly when the flag is non-zero:
for every flag other than 0 (negative values and values other than 1
included) the state becomes `[0, 0, 0]`, for flag 0 the state is untouched,
and for any flag `g` the state after the call is `[0, 0, 0]` only if `g` is
non-zero or the state was `[0, 0, 0]` already. -/
theorem arm_pid_init_f32_clears_iff_nonzero (S : arm_pid_instance_f32 F)
    (resetStateFlag : Int) (hreset : resetStateFlag ≠ 0) (g : Int) :
    (arm_pid_init_f32 S resetStateFlag).state = { s0 := 0, s1 := 0, s2 := 0 } ∧
    (arm_pid_init_f32 S 0).state = S.state ∧
    ((arm_pid_init_f32 S g).state = { s0 := 0, s1 := 0, s2 := 0 } ↔
      (g ≠ 0 ∨ S.state = { s0 := 0, s1 := 0, s2 := 0 })) := by
  refine ⟨by simp [arm_pid_init_f32, hreset], by simp [arm_pid_init_f32], ?_⟩
  by_cases hg : g = 0
  · simp [arm_pid_init_f32, hg]
  · simp [arm_pid_init_f32, hg]

/-- Witness for C14 on the integers: the flag is the least 32-bit signed value,
the other flag is 0; flags `2` and `-1` clear the state as well. -/
theorem arm_pid_init_f32_clears_iff_nonzero_witness :
    ((-2147483648 : Int) ≠ 0) ∧
    ((arm_pid_init_f32 sampleInstance (-2147483648)).state = { s0 := 0, s1 := 0, s2 := 0 } ∧
    (arm_pid_init_f32 sampleInstance 0).state = sampleInstance.state ∧
    ((arm_pid_init_f32 sampleInstance 0).state = { s0 := 0, s1 := 0, s2 := 0 } ↔
      ((0 : Int) ≠ 0 ∨ sampleInstance.state = { s0 := 0, s1 := 0, s2 := 0 }))) ∧
    (arm_pid_init_f32 sampleInstance 2).state = { s0 := 0, s1 := 0, s2 := 0 } ∧
    (arm_pid_init_f32 sampleInstance (-1)).state = { s0 := 0, s1 := 0, s2 := 0 } :=
  ⟨by decide,
    arm_pid_init_f32_clears_iff_nonzero sampleInstance (-2147483648) (by decide) 0,
    by decide, by decide⟩

/-- C17: a cold start is determined by the gains alone: two instances with
equal `Kp`, `Ki`, `Kd` (whatever their prior coefficients and state) are
equal in every field after `arm_pid_init_f32` with non-zero flags. -/
theorem arm_pid_init_f32_cold_start (S T : arm_pid_instance_f32 F)
    (hKp : S.Kp = T.Kp) (hKi : S.Ki = T.Ki) (hKd : S.Kd = T.Kd)
    (f g : Int) (hf : f ≠ 0) (hg : g ≠ 0) :
    arm_pid_init_f32 S f = arm_pid_init_f32 T g := by
  simp [arm_pid_init_f32, hf, hg, hKp, hKi, hKd]

/-- Witness for C17 on the integers: `sampleInstance` and `staleInstance` share
the gains `2, 1, 3` and differ in coefficients and state; flags `1` and `-3`. -/
theorem arm_pid_init_f32_cold_start_witness :
    (sampleInstance.Kp = staleInstance.Kp ∧ sampleInstance.Ki = staleInstance.Ki ∧
      sampleInstance.Kd = staleInstance.Kd ∧ (1 : Int) ≠ 0 ∧ (-3 : Int) ≠ 0) ∧
    arm_pid_init_f32 sampleInstance 1 = arm_pid_init_f32 staleInstance (-3) ∧
    sampleInstance ≠ staleInstance ∧
    arm_pid_init_f32 sampleInstance 1 =
      { A0 := 6, A1 := -8, A2 := 3, state := { s0 := 0, s1 := 0, s2 := 0 },
        Kp := 2, Ki := 1, Kd := 3 } :=
  ⟨⟨by decide, by decide, by decide, by decide, by decide⟩,
    arm_pid_init_f32_cold_start sampleInstance staleInstance (by decide) (by decide)
      (by decide) 1 (-3) (by decide) (by decide),
    by decide, by decide⟩

end InitTheorems

/-! ## The per-tick recurrence -/

section StepLemmas

lemma drive_fields {F : Type} [Add F] [Mul F] (S : arm_pid_instance_f32 F) (es : List F) :
    (drive S es).A0 = S.A0 ∧ (drive S es).A1 = S.A1 ∧ (drive S es).A2 = S.A2 ∧
    (drive S es).Kp = S.Kp ∧ (drive S es).Ki = S.Ki ∧ (drive S es).Kd = S.Kd := by
  induction es generalizing S with
  | nil => exact ⟨rfl, rfl, rfl, rfl, rfl, rfl⟩
  | cons e es ih => exact ih (step S e).2

lemma outputs_length {F : Type} [Add F] [Mul F] (S : arm_pid_instance_f32 F) (es : List F) :
    (outputs S es).length = es.length := by
  induction es generalizing S with
  | nil => rfl
  | cons e es ih => simp [outputs, ih]

lemma drive_take_succ {F : Type} [Add F] [Mul F] [Zero F] (S : arm_pid_instance_f32 F) (es : List F) (n : Nat)
    (h : n < es.length) :
    drive S (es.take (n + 1)) = (step (drive S (es.take n)) (es.getD n 0)).2 := by
  induction es generalizing S n with
  | nil => simp at h
  | cons e es ih =>
    cases n with
    | zero => simp [drive]
    | succ m =>
      have hm : m < es.length := by simpa using h
      simpa [drive] using ih (step S e).2 m hm

lemma outputs_getD {F : Type} [Add F] [Mul F] [Zero F] (S : arm_pid_instance_f32 F) (es : List F) (n : Nat)
    (h : n < es.length) :
    (outputs S es).getD n 0 = (step (drive S (es.take n)) (es.getD n 0)).1 := by
  induction es generalizing S n with
  | nil => simp at h
  | cons e es ih =>
    cases n with
    | zero => simp [outputs, drive]
    | succ m =>
      have hm : m < es.length := by simpa using h
      simpa [outputs, drive] using ih (step S e).2 m hm

lemma sampleAt_natCast {F : Type} [Zero F] (xs : List F) (n : Nat) : sampleAt xs (n : Int) = xs.getD n 0 := by
  simp [sampleAt]

/-- After `k` ticks from an all-zero state the buffer holds the last error, the
error before it and the last output (zero where there is no such tick). -/
lemma drive_state_of_zero {F : Type} [Add F] [Mul F] [Zero F]
    (S0 : arm_pid_instance_f32 F) (h0 : S0.state = { s0 := 0, s1 := 0, s2 := 0 })
    (es : List F) (k : Nat) (hk : k ≤ es.length) :
    (drive S0 (es.take k)).state =
      { s0 := sampleAt es ((k : Int) - 1), s1 := sampleAt es ((k : Int) - 2),
        s2 := sampleAt (outputs S0 es) ((k : Int) - 1) } := by
  induction k with
  | zero =>
    simp [drive, h0, sampleAt]
  | succ k ih =>
    have hlt : k < es.length := hk
    have ih1 := ih (Nat.le_of_lt hlt)
    have c1 : ((k + 1 : Nat) : Int) - 1 = (k : Int) := by omega
    have c2 : ((k + 1 : Nat) : Int) - 2 = (k : Int) - 1 := by omega
    rw [drive_take_succ S0 es k hlt, c1, c2, sampleAt_natCast, sampleAt_natCast,
      outputs_getD S0 es k hlt]
    simp [step, ih1]

/-- From an all-zero state every output obeys the three-tap recurrence. -/
lemma outputs_recurrence {F : Type} [Add F] [Mul F] [Zero F]
    (S0 : arm_pid_instance_f32 F) (h0 : S0.state = { s0 := 0, s1 := 0, s2 := 0 })
    (es : List F) (n : Nat) (hn : n < es.length) :
    (outputs S0 es).getD n 0 =
      S0.A0 * es.getD n 0 + S0.A1 * sampleAt es ((n : Int) - 1)
        + S0.A2 * sampleAt es ((n : Int) - 2) + sampleAt (outputs S0 es) ((n : Int) - 1) := by
  have h := drive_state_of_zero S0 h0 es n (Nat.le_of_lt hn)
  have hf := drive_fields S0 (es.take n)
  rw [outputs_getD S0 es n hn]
  simp only [step, h, hf.1, hf.2.1, hf.2.2.1]

/-- In exact arithmetic, with the coefficients derived from the gains and an
all-zero initial state, the output at every tick is the direct-form PID value. -/
lemma outputs_eq_pidDirectForm {F : Type} [CommRing F]
    (S0 : arm_pid_instance_f32 F) (h0 : S0.state = { s0 := 0, s1 := 0, s2 := 0 })
    (hA0 : S0.A0 = S0.Kp + S0.Ki + S0.Kd) (hA1 : S0.A1 = (-S0.Kp) - (2 * S0.Kd))
    (hA2 : S0.A2 = S0.Kd) (es : List F) (n : Nat) (hn : n < es.length) :
    (outputs S0 es).getD n 0 = pidDirectForm S0.Kp S0.Ki S0.Kd es n := by
  induction n with
  | zero =>
    have hr := outputs_recurrence S0 h0 es 0 hn
    have hs : (es.take (0 + 1)).sum = es.getD 0 0 := by
      rw [List.sum_take_succ es 0 hn, List.getD_eq_getElem _ _ hn]
      simp
    rw [hr, pidDirectForm, hs, hA0, hA1, hA2]
    simp [sampleAt]
    ring
  | succ m ih =>
    have hm : m < es.length := Nat.lt_of_succ_lt hn
    have hr := outputs_recurrence S0 h0 es (m + 1) hn
    have ihm := ih hm
    have c1 : ((m + 1 : Nat) : Int) - 1 = (m : Int) := by omega
    have c2 : ((m + 1 : Nat) : Int) - 2 = (m : Int) - 1 := by omega
    have hs : (es.take (m + 1 + 1)).sum = (es.take (m + 1)).sum + es.getD (m + 1) 0 := by
      rw [List.sum_take_succ es (m + 1) hn, List.getD_eq_getElem _ _ hn]
    rw [hr, c1, c2, sampleAt_natCast, sampleAt_natCast, ihm]
    unfold pidDirectForm
    rw [hs, c1, hA0, hA1, hA2]
    simp only [sampleAt_natCast]
    ring

/-- What `arm_pid_init_f32` leaves in the coefficient and gain fields. -/
lemma arm_pid_init_f32_fields {F : Type} [Add F] [Sub F] [Neg F] [Mul F] [Zero F] [OfNat F 2]
    (S : arm_pid_instance_f32 F) (resetStateFlag : Int) :
    (arm_pid_init_f32 S resetStateFlag).A0 = S.Kp + S.Ki + S.Kd ∧
    (arm_pid_init_f32 S resetStateFlag).A1 = (-S.Kp) - ((2 : F) * S.Kd) ∧
    (arm_pid_init_f32 S resetStateFlag).A2 = S.Kd ∧
    (arm_pid_init_f32 S resetStateFlag).Kp = S.Kp ∧
    (arm_pid_init_f32 S resetStateFlag).Ki = S.Ki ∧
    (arm_pid_init_f32 S resetStateFlag).Kd = S.Kd := by
  unfold arm_pid_init_f32
  split <;> exact ⟨rfl, rfl, rfl, rfl, rfl, rfl⟩

/-- A non-zero flag makes `arm_pid_init_f32` clear the state buffer. -/
lemma arm_pid_init_f32_state_of_ne {F : Type} [Add F] [Sub F] [Neg F] [Mul F] [Zero F]
    [OfNat F 2] (S : arm_pid_instance_f32 F) (resetStateFlag : Int)
    (hreset : resetStateFlag ≠ 0) :
    (arm_pid_init_f32 S resetStateFlag).state = { s0 := 0, s1 := 0, s2 := 0 } := by
  simp [arm_pid_init_f32, hreset]

/-- Every call keeps the coefficient invariant. -/
lemma perform_coefficientsDerived {F : Type} [Add F] [Sub F] [Neg F] [Mul F] [Zero F]
    [OfNat F 2] (S : arm_pid_instance_f32 F) (h : coefficientsDerived S) (c : Call F) :
    coefficientsDerived (perform S c) := by
  cases c with
  | init flag =>
    have hf := arm_pid_init_f32_fields S flag
    unfold coefficientsDerived perform
    rw [hf.1, hf.2.1, hf.2.2.1, hf.2.2.2.1, hf.2.2.2.2.1, hf.2.2.2.2.2]
    exact ⟨rfl, rfl, rfl⟩
  | tick e => exact h

/-- Every finite sequence of calls keeps the coefficient invariant. -/
lemma performAll_coefficientsDerived {F : Type} [Add F] [Sub F] [Neg F] [Mul F] [Zero F]
    [OfNat F 2] (S : arm_pid_instance_f32 F) (h : coefficientsDerived S)
    (cs : List (Call F)) : coefficientsDerived (performAll S cs) := by
  induction cs generalizing S with
  | nil => exact h
  | cons c cs ih => exact ih (perform S c) (perform_coefficientsDerived S h c)

/-- In exact arithmetic, three runs with the same gains and coefficients whose
states are related by `st3 = st1 + c * st2` slot by slot produce outputs
related in the same way when the errors are. -/
lemma outputs_superpose_states {F : Type} [CommRing F] (S : arm_pid_instance_f32 F) (c : F)
    (es es2 : List F) (st1 st2 st3 : StateBuf F)
    (h0 : st3.s0 = st1.s0 + c * st2.s0) (h1 : st3.s1 = st1.s1 + c * st2.s1)
    (h2 : st3.s2 = st1.s2 + c * st2.s2) :
    outputs { S with state := st3 } (superpose es es2 c) =
      superpose (outputs { S with state := st1 } es) (outputs { S with state := st2 } es2) c := by
  induction es generalizing es2 st1 st2 st3 with
  | nil => simp [superpose, outputs]
  | cons a as ih =>
    cases es2 with
    | nil => simp [superpose, outputs]
    | cons b bs =>
      have hy : S.A0 * (a + c * b) + S.A1 * st3.s0 + S.A2 * st3.s1 + st3.s2 =
          (S.A0 * a + S.A1 * st1.s0 + S.A2 * st1.s1 + st1.s2)
            + c * (S.A0 * b + S.A1 * st2.s0 + S.A2 * st2.s1 + st2.s2) := by
        rw [h0, h1, h2]; ring
      have ht := ih bs
        { s0 := a, s1 := st1.s0, s2 := S.A0 * a + S.A1 * st1.s0 + S.A2 * st1.s1 + st1.s2 }
        { s0 := b, s1 := st2.s0, s2 := S.A0 * b + S.A1 * st2.s0 + S.A2 * st2.s1 + st2.s2 }
        { s0 := a + c * b, s1 := st3.s0,
          s2 := S.A0 * (a + c * b) + S.A1 * st3.s0 + S.A2 * st3.s1 + st3.s2 }
        rfl h0 hy
      simp only [superpose, List.zipWith_cons_cons, outputs, step] at ht ⊢
      rw [ht, hy]

end StepLemmas

/-- C7: for every controller with coefficients `A0, A1, A2` and state
`[s0, s1, s2]` and every error `e`, `step e` returns
`y = A0*e + A1*s0 + A2*s1 + s2` computed from the state before the call, and
the state after the call is `[e, s0, y]`. -/
theorem step_output_and_shift {F : Type} [Add F] [Mul F]
    (S : arm_pid_instance_f32 F) (e : F) :
    (step S e).1 = S.A0 * e + S.A1 * S.state.s0 + S.A2 * S.state.s1 + S.state.s2 ∧
    (step S e).2.state = { s0 := e, s1 := S.state.s0, s2 := (step S e).1 } ∧
    (step S e).2.state.s0 = e ∧
    (step S e).2.state.s1 = S.state.s0 ∧
    (step S e).2.state.s2 = (step S e).1 :=
  ⟨rfl, rfl, rfl, rfl, rfl⟩

/-- C12: step determinism: for any two controllers with identical coefficients
`A0, A1, A2` and identical state, whatever their gains, and every error `e`,
`step e` returns the same output and produces the same next state (and leaves
the same coefficients) on both. -/
theorem step_deterministic {F : Type} [Add F] [Mul F]
    (S T : arm_pid_instance_f32 F) (hA0 : S.A0 = T.A0) (hA1 : S.A1 = T.A1)
    (hA2 : S.A2 = T.A2) (hstate : S.state = T.state) (e : F) :
    (step S e).1 = (step T e).1 ∧
    (step S e).2.state = (step T e).2.state ∧
    (step S e).2.A0 = (step T e).2.A0 ∧
    (step S e).2.A1 = (step T e).2.A1 ∧
    (step S e).2.A2 = (step T e).2.A2 := by
  simp [step, hA0, hA1, hA2, hstate]

/-- Witness for C12 on the integers: `sampleInstance` and `retunedInstance`
share coefficients `9, 8, 7` and state `[4, 5, 6]` and differ in all three
gains; `step 7` returns `9*7 + 8*4 + 7*5 + 6 = 136` on both. -/
theorem step_deterministic_witness :
    (sampleInstance.A0 = retunedInstance.A0 ∧ sampleInstance.A1 = retunedInstance.A1 ∧
      sampleInstance.A2 = retunedInstance.A2 ∧
      sampleInstance.state = retunedInstance.state) ∧
    ((step sampleInstance 7).1 = (step retunedInstance 7).1 ∧
    (step sampleInstance 7).2.state = (step retunedInstance 7).2.state ∧
    (step sampleInstance 7).2.A0 = (step retunedInstance 7).2.A0 ∧
    (step sampleInstance 7).2.A1 = (step retunedInstance 7).2.A1 ∧
    (step sampleInstance 7).2.A2 = (step retunedInstance 7).2.A2) ∧
    sampleInstance.Kp ≠ retunedInstance.Kp ∧
    (step retunedInstance 7).1 = 136 ∧
    (step retunedInstance 7).2.state = { s0 := 7, s1 := 4, s2 := 136 } :=
  ⟨⟨by decide, by decide, by decide, by decide⟩,
    step_deterministic sampleInstance retunedInstance (by decide) (by decide) (by decide)
      (by decide) 7,
    by decide, by decide, by decide⟩

section StepTheorems

variable {F : Type} [Add F] [Sub F] [Neg F] [Mul F] [Zero F] [OfNat F 2]

/-- C8: for every error sequence fed by successive `step` calls to a controller
initialised with reset (any non-zero flag), and every tick `n` of it, one
output is produced per error, the state after the call for tick `n` is
`[e[n], e[n-1], y[n]]`, and `y[n] = A0*e[n] + A1*e[n-1] + A2*e[n-2] + y[n-1]`,
where `e[-1] = e[-2] = y[-1] = 0`. -/
theorem reset_run_state_and_recurrence (S : arm_pid_instance_f32 F) (resetStateFlag : Int)
    (hreset : resetStateFlag ≠ 0) (es : List F) (n : Nat) (hn : n < es.length) :
    (outputs (arm_pid_init_f32 S resetStateFlag) es).length = es.length ∧
    (drive (arm_pid_init_f32 S resetStateFlag) (es.take (n + 1))).state =
      { s0 := sampleAt es n, s1 := sampleAt es ((n : Int) - 1),
        s2 := sampleAt (outputs (arm_pid_init_f32 S resetStateFlag) es) n } ∧
    sampleAt (outputs (arm_pid_init_f32 S resetStateFlag) es) n =
      (arm_pid_init_f32 S resetStateFlag).A0 * sampleAt es n
        + (arm_pid_init_f32 S resetStateFlag).A1 * sampleAt es ((n : Int) - 1)
        + (arm_pid_init_f32 S resetStateFlag).A2 * sampleAt es ((n : Int) - 2)
        + sampleAt (outputs (arm_pid_init_f32 S resetStateFlag) es) ((n : Int) - 1) := by
  have h0 := arm_pid_init_f32_state_of_ne S resetStateFlag hreset
  refine ⟨outputs_length _ es, ?_, ?_⟩
  · have h := drive_state_of_zero _ h0 es (n + 1) hn
    have c1 : ((n + 1 : Nat) : Int) - 1 = (n : Int) := by omega
    have c2 : ((n + 1 : Nat) : Int) - 2 = (n : Int) - 1 := by omega
    rw [c1, c2] at h
    exact h
  · rw [sampleAt_natCast, sampleAt_natCast]
    exact outputs_recurrence _ h0 es n hn

/-- Witness for C8 on the integers: gains `2, 1, 3`, errors `[3, -1, 4]`,
tick 2, reset flag 1. -/
theorem reset_run_state_and_recurrence_witness :
    ((1 : Int) ≠ 0 ∧ 2 < [(3 : Int), -1, 4].length) ∧
    ((outputs (arm_pid_init_f32 sampleInstance 1) [3, -1, 4]).length = [(3 : Int), -1, 4].length ∧
    (drive (arm_pid_init_f32 sampleInstance 1) ([(3 : Int), -1, 4].take (2 + 1))).state =
      { s0 := sampleAt [(3 : Int), -1, 4] (2 : Nat),
        s1 := sampleAt [(3 : Int), -1, 4] (((2 : Nat) : Int) - 1),
        s2 := sampleAt (outputs (arm_pid_init_f32 sampleInstance 1) [3, -1, 4]) (2 : Nat) } ∧
    sampleAt (outputs (arm_pid_init_f32 sampleInstance 1) [3, -1, 4]) (2 : Nat) =
      (arm_pid_init_f32 sampleInstance 1).A0 * sampleAt [(3 : Int), -1, 4] (2 : Nat)
        + (arm_pid_init_f32 sampleInstance 1).A1 * sampleAt [(3 : Int), -1, 4] (((2 : Nat) : Int) - 1)
        + (arm_pid_init_f32 sampleInstance 1).A2 * sampleAt [(3 : Int), -1, 4] (((2 : Nat) : Int) - 2)
        + sampleAt (outputs (arm_pid_init_f32 sampleInstance 1) [3, -1, 4]) (((2 : Nat) : Int) - 1)) ∧
    (drive (arm_pid_init_f32 sampleInstance 1) [3, -1, 4]).state = { s0 := 4, s1 := -1, s2 := 29 } :=
  ⟨⟨by decide, by decide⟩,
    reset_run_state_and_recurrence sampleInstance 1 (by decide) [3, -1, 4] 2 (by decide),
    by decide⟩

/-- C9: the coefficient invariant `A0 = Kp + Ki + Kd`, `A1 = -Kp - 2*Kd`,
`A2 = Kd` holds in every controller value reached from any `arm_pid_init_f32`
call by any finite sequence of `step` and further `arm_pid_init_f32` calls
(with any flags); and `step` leaves `Kp, Ki, Kd, A0, A1, A2` of any instance as
they were. -/
theorem coefficient_invariant_reachable (S : arm_pid_instance_f32 F) (resetStateFlag : Int)
    (calls : List (Call F)) (T : arm_pid_instance_f32 F) (e : F) :
    coefficientsDerived (performAll (arm_pid_init_f32 S resetStateFlag) calls) ∧
    (step T e).2.Kp = T.Kp ∧ (step T e).2.Ki = T.Ki ∧ (step T e).2.Kd = T.Kd ∧
    (step T e).2.A0 = T.A0 ∧ (step T e).2.A1 = T.A1 ∧ (step T e).2.A2 = T.A2 := by
  refine ⟨performAll_coefficientsDerived _ ?_ calls, rfl, rfl, rfl, rfl, rfl, rfl⟩
  have hf := arm_pid_init_f32_fields S resetStateFlag
  unfold coefficientsDerived
  rw [hf.1, hf.2.1, hf.2.2.1, hf.2.2.2.1, hf.2.2.2.2.1, hf.2.2.2.2.2]
  exact ⟨rfl, rfl, rfl⟩

end StepTheorems

/-! ## Exact arithmetic -/

section ExactTheorems

variable {F : Type} [CommRing F]

/-- C4: in exact arithmetic (any commutative ring of scalars), for all gains and
every finite error sequence, a controller initialised with reset (any non-zero
flag) and driven by `step e[0], ..., step e[n]` returns at tick `n` exactly the
direct-form PID value `Kp*e[n] + Ki*(e[0] + ... + e[n]) + Kd*(e[n] - e[n-1])`
with `e[-1] = 0`. -/
theorem reset_run_eq_pidDirectForm (S : arm_pid_instance_f32 F) (resetStateFlag : Int)
    (hreset : resetStateFlag ≠ 0) (es : List F) (n : Nat) (hn : n < es.length) :
    (outputs (arm_pid_init_f32 S resetStateFlag) es)[n]? =
      some (pidDirectForm S.Kp S.Ki S.Kd es n) ∧
    pidDirectForm S.Kp S.Ki S.Kd es n =
      S.Kp * es.getD n 0 + S.Ki * (es.take (n + 1)).sum
        + S.Kd * (es.getD n 0 - (if n = 0 then 0 else es.getD (n - 1) 0)) := by
  have hf := arm_pid_init_f32_fields S resetStateFlag
  have h0 := arm_pid_init_f32_state_of_ne S resetStateFlag hreset
  have hlen : n < (outputs (arm_pid_init_f32 S resetStateFlag) es).length := by
    rw [outputs_length]; exact hn
  have hd := outputs_eq_pidDirectForm (arm_pid_init_f32 S resetStateFlag) h0
    (by rw [hf.1, hf.2.2.2.1, hf.2.2.2.2.1, hf.2.2.2.2.2])
    (by rw [hf.2.1, hf.2.2.2.1, hf.2.2.2.2.2])
    (by rw [hf.2.2.1, hf.2.2.2.2.2]) es n hn
  rw [hf.2.2.2.1, hf.2.2.2.2.1, hf.2.2.2.2.2] at hd
  constructor
  · rw [← hd, List.getD_eq_getElem _ _ hlen, List.getElem?_eq_getElem hlen]
  · unfold pidDirectForm
    rw [sampleAt_natCast]
    cases n with
    | zero => simp [sampleAt]
    | succ m =>
      have c1 : ((m + 1 : Nat) : Int) - 1 = (m : Int) := by omega
      rw [c1, sampleAt_natCast]
      simp

/-- Witness for C4 on the integers: gains `2, 1, 3`, errors `[3, -1, 4]`,
tick 2, reset flag 1; the output there is `2*4 + 1*(3 - 1 + 4) + 3*(4 + 1) = 29`. -/
theorem reset_run_eq_pidDirectForm_witness :
    ((1 : Int) ≠ 0 ∧ 2 < [(3 : Int), -1, 4].length) ∧
    ((outputs (arm_pid_init_f32 sampleInstance 1) [3, -1, 4])[2]? =
      some (pidDirectForm sampleInstance.Kp sampleInstance.Ki sampleInstance.Kd [3, -1, 4] 2) ∧
    pidDirectForm sampleInstance.Kp sampleInstance.Ki sampleInstance.Kd [3, -1, 4] 2 =
      sampleInstance.Kp * [(3 : Int), -1, 4].getD 2 0
        + sampleInstance.Ki * ([(3 : Int), -1, 4].take (2 + 1)).sum
        + sampleInstance.Kd * ([(3 : Int), -1, 4].getD 2 0
            - (if 2 = 0 then 0 else [(3 : Int), -1, 4].getD (2 - 1) 0))) ∧
    outputs (arm_pid_init_f32 sampleInstance 1) [3, -1, 4] = [18, -12, 29] :=
  ⟨⟨by decide, by decide⟩,
    reset_run_eq_pidDirectForm sampleInstance 1 (by decide) [3, -1, 4] 2 (by decide),
    by decide⟩

/-- C15: in exact arithmetic the coefficients produced by `arm_pid_init_f32`
sum to the integral gain, `A0 + A1 + A2 = Ki`, for all gains; consequently,
for every controller with derived coefficients whose state has
`state[0] = state[1] = e`, `step e` returns `state[2] + Ki*e`, the next
`step e` returns that output plus `Ki*e` again, and the output does not change
when `Ki = 0`. -/
theorem coefficient_sum_and_held_error (S : arm_pid_instance_f32 F) (resetStateFlag : Int)
    (T : arm_pid_instance_f32 F) (hT : coefficientsDerived T) (e : F)
    (hs0 : T.state.s0 = e) (hs1 : T.state.s1 = e) :
    (arm_pid_init_f32 S resetStateFlag).A0 + (arm_pid_init_f32 S resetStateFlag).A1
      + (arm_pid_init_f32 S resetStateFlag).A2 = S.Ki ∧
    T.A0 + T.A1 + T.A2 = T.Ki ∧
    (step T e).1 = T.state.s2 + T.Ki * e ∧
    (step (step T e).2 e).1 = (step T e).1 + T.Ki * e ∧
    (T.Ki = 0 → (step T e).1 = T.state.s2 ∧ (step (step T e).2 e).1 = T.state.s2) := by
  have hf := arm_pid_init_f32_fields S resetStateFlag
  obtain ⟨hA0, hA1, hA2⟩ := hT
  have hsum : T.A0 + T.A1 + T.A2 = T.Ki := by rw [hA0, hA1, hA2]; ring
  have hy1 : (step T e).1 = T.state.s2 + T.Ki * e := by
    simp only [step, hs0, hs1]
    rw [← hsum]; ring
  have hy2 : (step (step T e).2 e).1 = (step T e).1 + T.Ki * e := by
    simp only [step, hs0]
    rw [← hsum]; ring
  refine ⟨?_, hsum, hy1, hy2, ?_⟩
  · rw [hf.1, hf.2.1, hf.2.2.1]; ring
  · intro hKi
    rw [hy2, hy1, hKi]
    simp

/-- Witness for C15 on the integers: `heldErrorInstance` has gains `2, 1, 3`,
derived coefficients `6, -8, 3` and state `[5, 5, 40]`; `step 5` returns
`40 + 1*5 = 45` and the next `step 5` returns `50`. -/
theorem coefficient_sum_and_held_error_witness :
    (coefficientsDerived heldErrorInstance ∧ heldErrorInstance.state.s0 = 5 ∧
      heldErrorInstance.state.s1 = 5) ∧
    ((arm_pid_init_f32 sampleInstance 0).A0 + (arm_pid_init_f32 sampleInstance 0).A1
      + (arm_pid_init_f32 sampleInstance 0).A2 = sampleInstance.Ki ∧
    heldErrorInstance.A0 + heldErrorInstance.A1 + heldErrorInstance.A2 = heldErrorInstance.Ki ∧
    (step heldErrorInstance 5).1 = heldErrorInstance.state.s2 + heldErrorInstance.Ki * 5 ∧
    (step (step heldErrorInstance 5).2 5).1 =
      (step heldErrorInstance 5).1 + heldErrorInstance.Ki * 5 ∧
    (heldErrorInstance.Ki = 0 → (step heldErrorInstance 5).1 = heldErrorInstance.state.s2 ∧
      (step (step heldErrorInstance 5).2 5).1 = heldErrorInstance.state.s2)) ∧
    (step heldErrorInstance 5).1 = 45 ∧
    (step (step heldErrorInstance 5).2 5).1 = 50 :=
  ⟨⟨by decide, by decide, by decide⟩,
    coefficient_sum_and_held_error sampleInstance 0 heldErrorInstance (by decide) 5
      (by decide) (by decide),
    by decide, by decide⟩

/-- C16: superposition in exact arithmetic: for fixed gains and a controller
initialised with reset (any non-zero flag), for all equal-length error
sequences `e`, `e'` and every scalar `c`, the outputs for `e + c*e'` are, tick
by tick, the outputs for `e` plus `c` times the outputs for `e'`. -/
theorem outputs_superposition (S : arm_pid_instance_f32 F) (resetStateFlag : Int)
    (hreset : resetStateFlag ≠ 0) (es es2 : List F) (hlen : es.length = es2.length) (c : F) :
    (superpose es es2 c).length = es.length ∧
    outputs (arm_pid_init_f32 S resetStateFlag) (superpose es es2 c) =
      superpose (outputs (arm_pid_init_f32 S resetStateFlag) es)
        (outputs (arm_pid_init_f32 S resetStateFlag) es2) c := by
  have h0 := arm_pid_init_f32_state_of_ne S resetStateFlag hreset
  constructor
  · simp [superpose, hlen]
  · have h := outputs_superpose_states (arm_pid_init_f32 S resetStateFlag) c es es2
      (arm_pid_init_f32 S resetStateFlag).state (arm_pid_init_f32 S resetStateFlag).state
      (arm_pid_init_f32 S resetStateFlag).state
      (by rw [h0]; simp) (by rw [h0]; simp) (by rw [h0]; simp)
    exact h

/-- Witness for C16 on the integers: gains `2, 1, 3`, errors `[3, -1, 4]` and
`[1, 0, 2]`, scalar `-2`, reset flag 1. -/
theorem outputs_superposition_witness :
    ((1 : Int) ≠ 0 ∧ [(3 : Int), -1, 4].length = [(1 : Int), 0, 2].length) ∧
    ((superpose [(3 : Int), -1, 4] [1, 0, 2] (-2)).length = [(3 : Int), -1, 4].length ∧
    outputs (arm_pid_init_f32 sampleInstance 1) (superpose [3, -1, 4] [1, 0, 2] (-2)) =
      superpose (outputs (arm_pid_init_f32 sampleInstance 1) [3, -1, 4])
        (outputs (arm_pid_init_f32 sampleInstance 1) [1, 0, 2]) (-2)) ∧
    superpose [(3 : Int), -1, 4] [1, 0, 2] (-2) = [1, -1, 0] ∧
    outputs (arm_pid_init_f32 sampleInstance 1) [1, -1, 0] = [6, -8, 3] ∧
    outputs (arm_pid_init_f32 sampleInstance 1) [1, 0, 2] = [6, -2, 13] :=
  ⟨⟨by decide, by decide⟩,
    outputs_superposition sampleInstance 1 (by decide) [3, -1, 4] [1, 0, 2] rfl (-2),
    by decide, by decide, by decide⟩

end ExactTheorems

end PID
